import Mathlib

/-!
# Verification of the piecewise-linear function engine

Shallow embedding of `pyomo/contrib/piecewise/piecewise_linear_function.py`
(the piecewise-linear function engine) in Lean 4, with theorems settling the
frozen claims about it.

Modelling conventions:
* Numbers are exact rationals (`ℚ`); the Python code computes with floats, and
  every numeric claim is settled over the exact-arithmetic model.
* A point is a `List ℚ` (the code stores coordinate tuples; scalars in the
  univariate mode are wrapped into 1-tuples by the code itself).
* `np.linalg.solve(A, b)` is modelled by `npSolve`: it fails (the library
  raises `LinAlgError`) exactly when the matrix is singular, and otherwise
  returns the unique solution of `A x = b`, computed here by Cramer's rule.
* Fallible Python code (raised exceptions) is modelled with `Option`/`Except`.
* List accesses use `List.getD`; the default values are chosen to mirror the
  `np.ones` initialization of work matrices where the code relies on it, and
  are otherwise irrelevant on the well-formed inputs the code is run on
  (Python would raise `IndexError` off that path).
-/

/-- `ZERO_TOLERANCE = 1e-8` from the source (the absolute tolerance used by the
point-location test), as an exact rational. -/
def ZERO_TOLERANCE : ℚ := 1 / 100000000

/-- An affine piece: the closure `lambda x: slope*x + intercept` in the
univariate mode (a single slope), or the closure built by
`linear_function_factory(normal)` in the multivariate mode (`D` slopes read
off `normal[0..D-1]` plus the intercept `normal[-1]`). -/
structure LinPiece where
  slopes : List ℚ
  intercept : ℚ
deriving DecidableEq, Repr

/-- Applying a piece to a query point: `sum(normal[i]*arg for i, arg in
enumerate(args)) + normal[-1]`, i.e. dot product of the slopes with the
coordinates plus the intercept. -/
def LinPiece.eval (p : LinPiece) (xs : List ℚ) : ℚ :=
  (List.zipWith (· * ·) p.slopes xs).sum + p.intercept

/-- The constructed state of a `PiecewiseLinearFunctionData` object: the
deduplicated point store `_points`, the simplex list `_simplices` (tuples of
point indices), and the parallel list `_linear_functions`. -/
structure PWLFData where
  points : List (List ℚ)
  simplices : List (List ℕ)
  linear_functions : List LinPiece
deriving DecidableEq, Repr

/-- Abstract error taxonomy for the exceptions the engine can raise.
Correspondence with the Python source:
* `configurationError` — the `ValueError` raised by `_getitem_when_not_present`
  for an unsupported argument combination;
* `emptyInputError` — the `ValueError` for an empty points/simplices list;
* `degenerateError` — the fit-time failure on a degenerate simplex
  (`ZeroDivisionError` for a zero-length 1-D segment, `LinAlgError` from
  `np.linalg.solve` for a singular multivariate hyperplane system);
* `nameError` — the `NameError` raised by the undefined name `logger` inside
  the `except` block of `_construct_from_function_and_points`;
* `geometryError` — a triangulation failure surfaced to the caller (what the
  spec calls `GeometryError`; see the C7 theorem). -/
inductive PWErr where
  | configurationError
  | emptyInputError
  | degenerateError
  | nameError
  | geometryError
deriving DecidableEq, Repr

/-! ## `np.linalg.solve`

The code calls `np.linalg.solve(A, b)` on square systems. The library raises
`LinAlgError` when the matrix is singular and otherwise returns the unique
solution. Over `ℚ` we realize that contract with Cramer's rule. -/

/-- Model of `np.linalg.solve`: `none` when the matrix is singular (the library
raises `LinAlgError`), otherwise the unique solution of `A x = b`. -/
def npSolve {n : ℕ} (A : Matrix (Fin n) (Fin n) ℚ) (b : Fin n → ℚ) :
    Option (Fin n → ℚ) :=
  if A.det = 0 then none else some (A.det⁻¹ • Matrix.cramer A b)

theorem npSolve_isSome_iff {n : ℕ} (A : Matrix (Fin n) (Fin n) ℚ)
    (b : Fin n → ℚ) : (npSolve A b).isSome ↔ A.det ≠ 0 := by
  unfold npSolve
  by_cases h : A.det = 0 <;> simp [h]

theorem npSolve_eq_none_iff {n : ℕ} (A : Matrix (Fin n) (Fin n) ℚ)
    (b : Fin n → ℚ) : npSolve A b = none ↔ A.det = 0 := by
  unfold npSolve
  by_cases h : A.det = 0 <;> simp [h]

/-- Soundness of the solver model: a returned vector solves the system. -/
theorem npSolve_sound {n : ℕ} {A : Matrix (Fin n) (Fin n) ℚ} {b x : Fin n → ℚ}
    (h : npSolve A b = some x) : A.mulVec x = b := by
  unfold npSolve at h
  by_cases hd : A.det = 0
  · simp [hd] at h
  · simp only [hd, if_false, Option.some.injEq] at h
    subst h
    rw [Matrix.mulVec_smul, Matrix.mulVec_cramer]
    rw [smul_smul, inv_mul_cancel₀ hd, one_smul]

/-- Completeness/uniqueness of the solver model: when the matrix is
nonsingular and `v` solves the system, the solver returns exactly `v`. -/
theorem npSolve_complete {n : ℕ} {A : Matrix (Fin n) (Fin n) ℚ}
    {b v : Fin n → ℚ} (hd : A.det ≠ 0) (hv : A.mulVec v = b) :
    npSolve A b = some v := by
  unfold npSolve
  simp only [hd, if_false, Option.some.injEq]
  rw [← hv, Matrix.cramer_eq_adjugate_mulVec, Matrix.mulVec_mulVec,
    Matrix.adjugate_mul, Matrix.smul_mulVec_assoc, Matrix.one_mulVec,
    smul_smul, inv_mul_cancel₀ hd, one_smul]

/-! ## The multivariate piece fitter

`_construct_from_function_and_simplices` (D ≥ 2 branch): for each simplex it
fills the `(D+2)×(D+2)` work matrix `A = np.ones(...)`:
* row `i ≤ D` (vertex `i` of the simplex): columns `0..D-1` hold the vertex's
  coordinates, column `D` holds `nonlinear_function(*pt)` (written by
  `A[i, j+1] = ...` with `j = D-1`), and column `D+1` keeps the `1` from the
  `np.ones` initialization;
* row `D+1`: zeroed, then `A[D+1, D] = -1`;
and solves `A x = b` with `b = (0, ..., 0, 1)`. -/

/-- The augmented homogeneous fit matrix, for a simplex given by its vertex
coordinates `pts i j` (vertex `i`, coordinate `j`) and sampled function
values `fvals i`. -/
def fitMatrix (d : ℕ) (pts : Fin (d + 1) → Fin d → ℚ)
    (fvals : Fin (d + 1) → ℚ) : Matrix (Fin (d + 2)) (Fin (d + 2)) ℚ :=
  fun i j =>
    if hi : i.val < d + 1 then
      if hj : j.val < d then pts ⟨i.val, hi⟩ ⟨j.val, hj⟩
      else if j.val = d then fvals ⟨i.val, hi⟩
      else 1
    else if j.val = d then -1 else 0

/-- The right-hand side `b = np.zeros(d+2); b[-1] = 1`. -/
def fitRhs (d : ℕ) : Fin (d + 2) → ℚ := fun i => if i.val = d + 1 then 1 else 0

theorem fitMatrix_coord {d : ℕ} (pts : Fin (d + 1) → Fin d → ℚ)
    (fvals : Fin (d + 1) → ℚ) (i : Fin (d + 1)) (j : Fin d) :
    fitMatrix d pts fvals i.castSucc j.castSucc.castSucc = pts i j := by
  have hi : (i.castSucc : Fin (d + 2)).val < d + 1 := i.isLt
  have hj : (j.castSucc.castSucc : Fin (d + 2)).val < d := j.isLt
  simp [fitMatrix, hi, hj]

theorem fitMatrix_fval {d : ℕ} (pts : Fin (d + 1) → Fin d → ℚ)
    (fvals : Fin (d + 1) → ℚ) (i : Fin (d + 1)) :
    fitMatrix d pts fvals i.castSucc (Fin.last d).castSucc = fvals i := by
  have hi : (i.castSucc : Fin (d + 2)).val < d + 1 := i.isLt
  have hj : ¬ ((Fin.last d).castSucc : Fin (d + 2)).val < d := by
    simp [Fin.last]
  simp [fitMatrix, hi, hj, Fin.last]

theorem fitMatrix_one {d : ℕ} (pts : Fin (d + 1) → Fin d → ℚ)
    (fvals : Fin (d + 1) → ℚ) (i : Fin (d + 1)) :
    fitMatrix d pts fvals i.castSucc (Fin.last (d + 1)) = 1 := by
  have hi : (i.castSucc : Fin (d + 2)).val < d + 1 := i.isLt
  simp [fitMatrix, hi, Fin.last]

theorem fitMatrix_lastRow {d : ℕ} (pts : Fin (d + 1) → Fin d → ℚ)
    (fvals : Fin (d + 1) → ℚ) (j : Fin (d + 2)) :
    fitMatrix d pts fvals (Fin.last (d + 1)) j = if j.val = d then -1 else 0 := by
  have hi : ¬ ((Fin.last (d + 1) : Fin (d + 2)).val < d + 1) := by
    simp [Fin.last]
  simp [fitMatrix, hi]

/-- The vertex coordinates of `simplex` read from the point store, as a
function: vertex `i`, coordinate `j`. On the well-formed instances the code
operates on, every index is in range; the defaults mirror the untouched
`np.ones` entries. -/
def vertexCoords (points : List (List ℚ)) (simplex : List ℕ) (d : ℕ) :
    Fin (d + 1) → Fin d → ℚ :=
  fun i j => ((points.getD (simplex.getD i.val 0) []).getD j.val 1)

/-- The sampled function values `nonlinear_function(*pt)` at the vertices of
`simplex`. -/
def vertexFVals (points : List (List ℚ)) (simplex : List ℕ)
    (f : List ℚ → ℚ) (d : ℕ) : Fin (d + 1) → ℚ :=
  fun i => f (points.getD (simplex.getD i.val 0) [])

/-- Fitting one multivariate simplex: solve the augmented system and package
`normal` as a piece via `linear_function_factory` (slopes `normal[0..d-1]`,
intercept `normal[-1]`). `none` models the `LinAlgError` that
`np.linalg.solve` raises on a singular system. -/
def fitSimplexMV (points : List (List ℚ)) (simplex : List ℕ)
    (f : List ℚ → ℚ) (d : ℕ) : Option LinPiece :=
  (npSolve (fitMatrix d (vertexCoords points simplex d)
      (vertexFVals points simplex f d)) (fitRhs d)).map
    (fun normal =>
      ⟨List.ofFn (fun j : Fin d => normal j.castSucc.castSucc),
        normal (Fin.last (d + 1))⟩)

/-- The `d+1` vertices `pts` are affinely dependent: some nontrivial weights
sum to zero and annihilate every coordinate (equivalently, the vertices lie
in a proper affine subspace; this is the spec's notion of a degenerate
simplex). -/
def AffinelyDependent (d : ℕ) (pts : Fin (d + 1) → Fin d → ℚ) : Prop :=
  ∃ c : Fin (d + 1) → ℚ, c ≠ 0 ∧ (∑ i, c i) = 0 ∧ ∀ j, (∑ i, c i * pts i j) = 0

/-- A solution of the augmented system has `-1` in the function-value slot
(this is what the extra equation `A[D+1, D] = -1`, `b[-1] = 1` enforces). -/
theorem fit_solution_last_coeff {d : ℕ} {pts : Fin (d + 1) → Fin d → ℚ}
    {fvals : Fin (d + 1) → ℚ} {x : Fin (d + 2) → ℚ}
    (hx : (fitMatrix d pts fvals).mulVec x = fitRhs d) :
    x (Fin.last d).castSucc = -1 := by
  have hrow := congrFun hx (Fin.last (d + 1))
  rw [Matrix.mulVec, Matrix.dotProduct] at hrow
  have hsum : ∀ j : Fin (d + 2),
      fitMatrix d pts fvals (Fin.last (d + 1)) j * x j =
        if j = (Fin.last d).castSucc then -x j else 0 := by
    intro j
    rw [fitMatrix_lastRow]
    by_cases h : j = (Fin.last d).castSucc
    · subst h
      simp [Fin.last]
    · have hv : ¬ j.val = d := by
        intro hval
        exact h (Fin.ext (by simp [Fin.last, hval]))
      simp [h, hv]
  rw [Finset.sum_congr rfl (fun j _ => hsum j),
    Finset.sum_ite_eq' Finset.univ ((Fin.last d).castSucc) (fun j => -x j)] at hrow
  simp only [Finset.mem_univ, if_true] at hrow
  have hb : fitRhs d (Fin.last (d + 1)) = 1 := by simp [fitRhs, Fin.last]
  rw [hb] at hrow
  linarith

/-- Any solution of the augmented homogeneous system interpolates the sampled
values: at every vertex, `value = dot(slopes, coordinates) + intercept`. -/
theorem fit_solution_interpolates {d : ℕ} {pts : Fin (d + 1) → Fin d → ℚ}
    {fvals : Fin (d + 1) → ℚ} {x : Fin (d + 2) → ℚ}
    (hx : (fitMatrix d pts fvals).mulVec x = fitRhs d) (i : Fin (d + 1)) :
    fvals i = (∑ j : Fin d, x j.castSucc.castSucc * pts i j) +
      x (Fin.last (d + 1)) := by
  have hlast := fit_solution_last_coeff hx
  have hrow := congrFun hx i.castSucc
  rw [Matrix.mulVec, Matrix.dotProduct, Fin.sum_univ_castSucc,
    Fin.sum_univ_castSucc] at hrow
  simp only [fitMatrix_coord, fitMatrix_fval, fitMatrix_one] at hrow
  have hb : fitRhs d i.castSucc = 0 := by
    have h2 : (i : ℕ) < d + 1 := i.isLt
    have hne : ¬ (i : ℕ) = d + 1 := by omega
    simp [fitRhs, hne]
  rw [hb, hlast] at hrow
  have : (∑ j : Fin d, pts i j * x j.castSucc.castSucc) +
      fvals i * (-1) + 1 * x (Fin.last (d + 1)) = 0 := hrow
  have hcomm : (∑ j : Fin d, pts i j * x j.castSucc.castSucc) =
      ∑ j : Fin d, x j.castSucc.castSucc * pts i j :=
    Finset.sum_congr rfl (fun j _ => mul_comm _ _)
  rw [hcomm] at this
  linarith

/-- Affinely dependent vertices make the augmented fit system singular: the
dependence weights, extended by the matching weight on the forced last row,
give a nontrivial left null vector. -/
theorem fitMatrix_det_eq_zero_of_affinelyDependent {d : ℕ}
    {pts : Fin (d + 1) → Fin d → ℚ} (fvals : Fin (d + 1) → ℚ)
    (hdep : AffinelyDependent d pts) :
    (fitMatrix d pts fvals).det = 0 := by
  obtain ⟨c, hc0, hcsum, hccoord⟩ := hdep
  set s : ℚ := ∑ i, c i * fvals i with hs
  set v : Fin (d + 2) → ℚ := Fin.snoc c s with hv
  apply Matrix.exists_vecMul_eq_zero_iff.mp
  refine ⟨v, ?_, ?_⟩
  · obtain ⟨i, hi⟩ := Function.ne_iff.mp hc0
    apply Function.ne_iff.mpr
    refine ⟨i.castSucc, ?_⟩
    simpa [hv, Fin.snoc_castSucc] using hi
  · funext j
    rw [Matrix.vecMul, Matrix.dotProduct, Fin.sum_univ_castSucc]
    simp only [hv, Fin.snoc_castSucc, Fin.snoc_last]
    induction j using Fin.lastCases with
    | last =>
      simp only [fitMatrix_one, fitMatrix_lastRow]
      have : ¬ (Fin.last (d + 1) : Fin (d + 2)).val = d := by
        simp [Fin.last]
      simp only [this, if_false, mul_zero, add_zero, mul_one]
      simpa using hcsum
    | cast j' =>
      induction j' using Fin.lastCases with
      | last =>
        simp only [fitMatrix_fval, fitMatrix_lastRow]
        have : ((Fin.last d).castSucc : Fin (d + 2)).val = d := by simp [Fin.last]
        simp only [this, if_true]
        simp [hs]
      | cast j'' =>
        simp only [fitMatrix_coord, fitMatrix_lastRow]
        have : ¬ ((j''.castSucc.castSucc : Fin (d + 2)).val = d) := by
          have := j''.isLt
          simp
          omega
        simp only [this, if_false, mul_zero, add_zero]
        simpa using hccoord j''

/-- Fit-time failure on a degenerate multivariate simplex: `np.linalg.solve`
raises on the singular system, so the fit produces no piece. -/
theorem fitSimplexMV_none_of_affinelyDependent (points : List (List ℚ))
    (simplex : List ℕ) (f : List ℚ → ℚ) (d : ℕ)
    (hdep : AffinelyDependent d (vertexCoords points simplex d)) :
    fitSimplexMV points simplex f d = none := by
  unfold fitSimplexMV
  have h0 : npSolve (fitMatrix d (vertexCoords points simplex d)
      (vertexFVals points simplex f d)) (fitRhs d) = none :=
    (npSolve_eq_none_iff _ _).mpr
      (fitMatrix_det_eq_zero_of_affinelyDependent _ hdep)
  rw [h0]
  rfl

/-! ## Point location (`_pt_in_simplex`)

`dim = len(pt)`. In 1-D the test is a direct interval check. Otherwise the
code builds the `(dim+1)×(dim+1)` matrix `A = np.ones(...)` whose column `j`
holds vertex `j`'s coordinates (the last row keeping the `1`s), sets
`b = pt + [1]`, returns `False` when `np.linalg.det(A) == 0`, and otherwise
accepts iff no barycentric coordinate is `< -ZERO_TOLERANCE`. -/

/-- The barycentric system matrix. Entries of columns beyond the simplex, and
of rows beyond a vertex's coordinates, keep the `np.ones` initialization. -/
def baryMatrix (points : List (List ℚ)) (simplex : List ℕ) (n : ℕ) :
    Matrix (Fin (n + 1)) (Fin (n + 1)) ℚ :=
  fun i j =>
    if j.val < simplex.length then
      (points.getD (simplex.getD j.val 0) []).getD i.val 1
    else 1

/-- The right-hand side `b = np.array([x for x in pt] + [1])`. -/
def baryRhs (pt : List ℚ) : Fin (pt.length + 1) → ℚ :=
  fun i => if h : i.val < pt.length then pt.get ⟨i.val, h⟩ else 1

/-- The barycentric coordinates of `pt` with respect to the simplex, when the
system is solvable (`none` models the singular case, where the code reports
non-containment instead of solving). -/
def barycentricCoords (points : List (List ℚ)) (simplex : List ℕ)
    (pt : List ℚ) : Option (Fin (pt.length + 1) → ℚ) :=
  npSolve (baryMatrix points simplex pt.length) (baryRhs pt)

/-- Embedding of `_pt_in_simplex`. -/
def pt_in_simplex (points : List (List ℚ)) (simplex : List ℕ)
    (pt : List ℚ) : Bool :=
  if pt.length = 1 then
    decide ((points.getD (simplex.getD 0 0) []).getD 0 0 ≤ pt.getD 0 0 ∧
      (points.getD (simplex.getD 1 0) []).getD 0 0 ≥ pt.getD 0 0)
  else
    match barycentricCoords points simplex pt with
    | none => false
    | some lambdas => decide (∀ i, ¬ lambdas i < -ZERO_TOLERANCE)

/-! ## Evaluation (`_evaluate`)

A linear scan of `zip(self._simplices, self._linear_functions)`; the first
containing simplex's piece is applied. `none` models the `ValueError`
("Is the point in the function's domain?") when no simplex contains the
point — the spec's `DomainError`. -/

/-- Embedding of `_evaluate` on a constructed instance. -/
def pwEvaluate (D : PWLFData) (pt : List ℚ) : Option ℚ :=
  match (D.simplices.zip D.linear_functions).find?
      (fun sf => pt_in_simplex D.points sf.1 pt) with
  | some sf => some (sf.2.eval pt)
  | none => none

/-! ## The univariate fitter

`_construct_from_univariate_function_and_segments`: for each segment,
`slope = (y2 - y1)/(x2 - x1)` and `intercept = y1 - slope*x1`. When
`x1 == x2` the value dictionary collapses to one entry and the division is
`0/0`, a `ZeroDivisionError` — modelled as `none`. -/

/-- Fit one 1-D segment. -/
def fitSegment (f : ℚ → ℚ) (x1 x2 : ℚ) : Option LinPiece :=
  if x2 - x1 = 0 then none
  else
    let slope := (f x2 - f x1) / (x2 - x1)
    some ⟨[slope], f x1 - slope * x1⟩

/-- The fitting loop shared by the construction modes: fit each simplex in
order, aborting on the first failure (the raised exception aborts the whole
construction). -/
def fitList (simplices : List (List ℕ)) (fit1 : List ℕ → Option LinPiece) :
    Option (List LinPiece) :=
  match simplices with
  | [] => some []
  | s :: rest =>
    match fit1 s with
    | none => none
    | some p => (fitList rest fit1).map (p :: ·)

theorem fitList_length {simplices : List (List ℕ)}
    {fit1 : List ℕ → Option LinPiece} {r : List LinPiece}
    (h : fitList simplices fit1 = some r) : r.length = simplices.length := by
  induction simplices generalizing r with
  | nil =>
    simp [fitList] at h
    subst h
    rfl
  | cons s rest ih =>
    unfold fitList at h
    cases hfit : fit1 s with
    | none => rw [hfit] at h; exact absurd h (by simp)
    | some p =>
      rw [hfit] at h
      cases hrest : fitList rest fit1 with
      | none => rw [hrest] at h; exact absurd h (by simp)
      | some r' =>
        rw [hrest] at h
        simp only [Option.map_some', Option.some.injEq] at h
        subst h
        simp [ih hrest]

theorem fitList_none_of_mem {simplices : List (List ℕ)}
    {fit1 : List ℕ → Option LinPiece} {s : List ℕ}
    (hmem : s ∈ simplices) (hfail : fit1 s = none) :
    fitList simplices fit1 = none := by
  induction simplices with
  | nil => cases hmem
  | cons t rest ih =>
    unfold fitList
    rcases List.mem_cons.mp hmem with h | h
    · subst h
      rw [hfail]
    · cases hfit : fit1 t with
      | none => rfl
      | some p => rw [ih h]; rfl

/-! ## The construction modes -/

/-- Embedding of `_construct_from_univariate_function_and_segments`: the
endpoints of each segment are read from the point store
(`x1 = obj._points[idx1][0]`, `x2 = obj._points[idx2][0]`). -/
def construct_from_univariate_function_and_segments (pts : List (List ℚ))
    (simplices : List (List ℕ)) (f : ℚ → ℚ) : Except PWErr PWLFData :=
  match fitList simplices (fun s =>
      fitSegment f ((pts.getD (s.getD 0 0) []).getD 0 0)
        ((pts.getD (s.getD 1 0) []).getD 0 0)) with
  | none => .error .degenerateError
  | some pieces => .ok ⟨pts, simplices, pieces⟩

/-- Embedding of the 1-D (scalar points) branch of
`_construct_from_function_and_points`: sort the points, emit the
consecutive-pair segments `(i, i+1)`, store the points as 1-tuples, and fit
the segments. (Python's `list.sort` is modelled by insertion sort; on
rationals both produce the unique ascending ordering up to duplicates.) -/
def construct_from_function_and_points_1d (points : List ℚ) (f : ℚ → ℚ) :
    Except PWErr PWLFData :=
  if points.length < 1 then .error .emptyInputError
  else
    let sorted := List.insertionSort (· ≤ ·) points
    let simplices := (List.range (points.length - 1)).map (fun i => [i, i + 1])
    let pts := sorted.map (fun x => [x])
    construct_from_univariate_function_and_segments pts simplices f

/-- Embedding of the body of `_construct_from_function_and_simplices` once the
point store and simplex list are in place: compute
`dimension = len(simplices[0]) - 1`, dispatch to the univariate fitter when
it is 1 (the nonlinear function is then applied to the scalar coordinate),
and otherwise fit every simplex through the augmented system. -/
def fit_function_over_simplices (pts : List (List ℚ))
    (simplices : List (List ℕ)) (f : List ℚ → ℚ) : Except PWErr PWLFData :=
  if simplices.length < 1 then .error .emptyInputError
  else
    let dimension := (simplices.headD []).length - 1
    if dimension = 1 then
      construct_from_univariate_function_and_segments pts simplices
        (fun x => f [x])
    else
      match fitList simplices (fun s => fitSimplexMV pts s f dimension) with
      | none => .error .degenerateError
      | some pieces => .ok ⟨pts, simplices, pieces⟩

/-! ## The point registry (`_get_simplices_from_arg`)

The code keeps a `known_points` set and a `point_to_index` dict and appends
unseen points to `self._points`; since only unseen points are appended, the
dict maps each point to the position of its first occurrence in the store,
i.e. `findIdx?` on the store. -/

/-- Intern one coordinate tuple: return the existing index if the point was
seen before, otherwise append it and return the new index. -/
def intern (pts : List (List ℚ)) (p : List ℚ) : List (List ℚ) × ℕ :=
  match pts.findIdx? (fun q => q = p) with
  | some i => (pts, i)
  | none => (pts ++ [p], pts.length)

/-- Intern the extreme points of one simplex, collecting their indices. -/
def internSimplex (pts : List (List ℚ)) (simplex : List (List ℚ)) :
    List (List ℚ) × List ℕ :=
  simplex.foldl (fun acc p =>
    let r := intern acc.1 p
    (r.1, acc.2 ++ [r.2])) (pts, [])

/-- Embedding of `_get_simplices_from_arg`: dedup-register every vertex of
every simplex and record each simplex as a tuple of point indices. -/
def getSimplicesFromArg (S : List (List (List ℚ))) :
    List (List ℚ) × List (List ℕ) :=
  S.foldl (fun acc simplex =>
    let r := internSimplex acc.1 simplex
    (r.1, acc.2 ++ [r.2])) ([], [])

/-- Embedding of `_construct_from_function_and_simplices` when called with
explicit simplices (mode 2): extract and dedup the points, then fit. -/
def construct_from_function_and_simplices (S : List (List (List ℚ)))
    (f : List ℚ → ℚ) : Except PWErr PWLFData :=
  let r := getSimplicesFromArg S
  fit_function_over_simplices r.1 r.2 f

/-- Embedding of the multivariate (`dimension != 1`) branch of
`_construct_from_function_and_points`. `tri` stands for
`scipy.spatial.Delaunay` (an external library, not part of the sources): it
either produces the triangulation's simplices or fails (`QhullError` /
`ValueError`). On failure the `except` block executes
`logger.error(...)` — but `logger` is an undefined name in this module, so a
`NameError` is raised there and the `raise` statement that would re-raise the
triangulation error is never reached. -/
def construct_from_function_and_points_mv
    (tri : List (List ℚ) → Except Unit (List (List ℕ)))
    (points : List (List ℚ)) (f : List ℚ → ℚ) : Except PWErr PWLFData :=
  if points.length < 1 then .error .emptyInputError
  else
    match tri points with
    | .error _ => .error .nameError
    | .ok simplices => fit_function_over_simplices points simplices f

/-- Embedding of `_construct_from_linear_functions_and_simplices` (mode 3):
extract the simplices and store the supplied pieces as they are — the code
performs no length check between the two lists. -/
def construct_from_linear_functions_and_simplices
    (S : List (List (List ℚ))) (lfs : List LinPiece) : PWLFData :=
  let r := getSimplicesFromArg S
  ⟨r.1, r.2, lfs⟩

/-! ## Construction dispatch (`_getitem_when_not_present`)

The `_handlers` dict maps the 4-tuple
`(function given, points given, simplices given, linear_functions given)` to
a builder; a combination outside the three supported ones raises
`ValueError` (the spec's `ConfigurationError`). -/

/-- The three supported construction modes. -/
inductive PWMode where
  | fnAndPoints
  | fnAndSimplices
  | linearFnsAndSimplices
deriving DecidableEq, Repr

/-- The `_handlers` lookup. -/
def selectHandler : Bool → Bool → Bool → Bool → Option PWMode
  | true, true, false, false => some .fnAndPoints
  | true, false, true, false => some .fnAndSimplices
  | false, false, true, true => some .linearFnsAndSimplices
  | _, _, _, _ => none

/-- Embedding of the dispatch at the end of `_getitem_when_not_present`: an
unsupported combination raises before any builder runs. -/
def getitem_when_not_present (hasFn hasPts hasSimp hasLin : Bool)
    (run : PWMode → Except PWErr PWLFData) : Except PWErr PWLFData :=
  match selectHandler hasFn hasPts hasSimp hasLin with
  | none => .error .configurationError
  | some m => run m

/-! ## The symbolic path of `__call__`

`__call__` evaluates numerically when every argument is a native number or a
non-potentially-variable expression; otherwise it builds a **new**
`PiecewiseLinearExpression` from the argument tuple, stores it in the
`_expressions` registry under `id(expr)` — the identity of the freshly
created object, modelled by a monotone counter (a new object's id differs
from every live object's id, and the registry keeps all nodes alive) — and
returns the stored node. -/

/-- A call argument: a concrete number (or fixed expression) or a symbolic
placeholder. -/
inductive PWArg where
  | concrete (v : ℚ)
  | symbolic (h : ℕ)
deriving DecidableEq, Repr

/-- The duck-typed concreteness test
(`type(arg) in native_types or not arg.is_potentially_variable()`). -/
def PWArg.isConcrete : PWArg → Bool
  | .concrete _ => true
  | .symbolic _ => false

/-- `value(arg)`; only reached on the all-concrete path. -/
def PWArg.val : PWArg → ℚ
  | .concrete v => v
  | .symbolic _ => 0

/-- An expression node held in the `_expressions` registry: the identity of
its underlying `PiecewiseLinearExpression` plus the argument tuple. -/
structure PWNode where
  exprId : ℕ
  args : List PWArg
deriving DecidableEq, Repr

/-- The mutable symbolic state of a function instance: the id allocator and
the `_expressions` registry in insertion order. -/
structure SymState where
  nextId : ℕ
  exprs : List (ℕ × PWNode)
deriving DecidableEq, Repr

/-- Embedding of `__call__`: numeric arguments are routed to `_evaluate`;
otherwise a fresh expression node is created, registered under its id, and
returned. -/
def pwlfCall (D : PWLFData) (σ : SymState) (args : List PWArg) :
    Option (ℚ ⊕ PWNode) × SymState :=
  if args.all PWArg.isConcrete then
    ((pwEvaluate D (args.map PWArg.val)).map Sum.inl, σ)
  else
    let node : PWNode := ⟨σ.nextId, args⟩
    (some (Sum.inr node), ⟨σ.nextId + 1, σ.exprs ++ [(σ.nextId, node)]⟩)

/-- Registry lookup by expression identity (`self._expressions[idx]`, as used
by `map_transformation_var`). -/
def exprLookup (σ : SymState) (i : ℕ) : Option PWNode :=
  (σ.exprs.find? (fun e => e.1 == i)).map (·.2)

/-! ## Concrete scenario data

The spec's 2-D scenario: simplex `[(0,0), (1,0), (0,1)]`, `f(x,y) = x + 2y`,
and its 1-D scenario: points `[0, 1, 2]`, `f(x) = x*x`. -/

def demoMVPoints : List (List ℚ) := [[0, 0], [1, 0], [0, 1]]

def demoMVSimplex : List ℕ := [0, 1, 2]

def demoMVF : List ℚ → ℚ := fun xs => xs.getD 0 0 + 2 * xs.getD 1 0

def demoNormal : Fin 4 → ℚ := ![1, 2, -1, 0]

/-- The instance built by the 1-D scenario. -/
def demoInstance1d : PWLFData :=
  ⟨[[0], [1], [2]], [[0, 1], [1, 2]], [⟨[1], 0⟩, ⟨[3], -2⟩]⟩

theorem demoMV_det :
    (fitMatrix 2 (vertexCoords demoMVPoints demoMVSimplex 2)
      (vertexFVals demoMVPoints demoMVSimplex demoMVF 2)).det = 1 := by
  norm_num [Matrix.det_succ_row_zero, Fin.sum_univ_succ, fitMatrix,
    vertexCoords, vertexFVals, demoMVPoints, demoMVSimplex, demoMVF,
    Fin.succAbove, Fin.lt_def, Fin.succ]

theorem demoMV_mulVec :
    (fitMatrix 2 (vertexCoords demoMVPoints demoMVSimplex 2)
      (vertexFVals demoMVPoints demoMVSimplex demoMVF 2)).mulVec demoNormal =
      fitRhs 2 := by
  funext i
  fin_cases i <;>
    norm_num [Matrix.mulVec, Matrix.dotProduct, Fin.sum_univ_succ, fitRhs,
      fitMatrix, vertexCoords, vertexFVals, demoMVPoints, demoMVSimplex,
      demoMVF, demoNormal]

theorem demoMV_npSolve :
    npSolve (fitMatrix 2 (vertexCoords demoMVPoints demoMVSimplex 2)
      (vertexFVals demoMVPoints demoMVSimplex demoMVF 2)) (fitRhs 2) =
      some demoNormal :=
  npSolve_complete (by rw [demoMV_det]; norm_num) demoMV_mulVec

theorem demoMV_fit :
    fitSimplexMV demoMVPoints demoMVSimplex demoMVF 2 = some ⟨[1, 2], 0⟩ := by
  unfold fitSimplexMV
  rw [demoMV_npSolve]
  rfl

theorem demo1d_construct :
    construct_from_function_and_points_1d [0, 1, 2] (fun x => x * x) =
      .ok demoInstance1d := by
  norm_num [construct_from_function_and_points_1d, List.insertionSort,
    List.orderedInsert, construct_from_univariate_function_and_segments,
    fitList, fitSegment, List.range, List.range.loop, demoInstance1d]

/-! ## Claims -/

/-- C1: for every non-degenerate simplex fitted in the multivariate mode
(D ≥ 2), the affine piece obtained by solving the augmented (D+2)×(D+2)
homogeneous system satisfies `value = dot(slopes, coordinates) + intercept`
at every one of the simplex's D+1 vertices (slopes are `normal[0..D-1]`, the
intercept is `normal[-1]`); in particular, fitting `f(x,y) = x + 2y` on the
simplex `[(0,0), (1,0), (0,1)]` yields slopes `(1, 2)` and intercept `0`. -/
theorem c1_multivariate_fit_interpolates :
    (∀ (d : ℕ) (pts : Fin (d + 1) → Fin d → ℚ) (fvals : Fin (d + 1) → ℚ)
        (normal : Fin (d + 2) → ℚ), 2 ≤ d →
      npSolve (fitMatrix d pts fvals) (fitRhs d) = some normal →
      ∀ i : Fin (d + 1), fvals i =
        (∑ j : Fin d, normal j.castSucc.castSucc * pts i j) +
          normal (Fin.last (d + 1))) ∧
    fitSimplexMV demoMVPoints demoMVSimplex demoMVF 2 = some ⟨[1, 2], 0⟩ :=
  ⟨fun _ _ _ _ _ h i => fit_solution_interpolates (npSolve_sound h) i,
    demoMV_fit⟩

/-- Witness for C1: the general conjunct applied to the spec's concrete 2-D
scenario, every hypothesis discharged there. -/
theorem c1_witness :
    vertexFVals demoMVPoints demoMVSimplex demoMVF 2 0 =
      (∑ j : Fin 2, demoNormal j.castSucc.castSucc *
        vertexCoords demoMVPoints demoMVSimplex 2 0 j) +
        demoNormal (Fin.last 3) :=
  c1_multivariate_fit_interpolates.1 2
    (vertexCoords demoMVPoints demoMVSimplex 2)
    (vertexFVals demoMVPoints demoMVSimplex demoMVF 2)
    demoNormal (by norm_num) demoMV_npSolve 0

/-- C3: constructing from points `[0, 1, 2]` and `f(x) = x*x` in the
function-plus-points mode produces exactly the two segments `[0,1]` (piece
`y = 1*x + 0`) and `[1,2]` (piece `y = 3*x - 2`); evaluation returns `0.5`
at `0.5` and `2.5` at `1.5`, and fails (`DomainError`) at `3`. -/
theorem c3_univariate_concrete_scenario :
    construct_from_function_and_points_1d [0, 1, 2] (fun x => x * x) =
      .ok ⟨[[0], [1], [2]], [[0, 1], [1, 2]], [⟨[1], 0⟩, ⟨[3], -2⟩]⟩ ∧
    pwEvaluate demoInstance1d [1/2] = some (1/2) ∧
    pwEvaluate demoInstance1d [3/2] = some (5/2) ∧
    pwEvaluate demoInstance1d [3] = none := by
  refine ⟨demo1d_construct, ?_, ?_, ?_⟩ <;>
    norm_num [pwEvaluate, List.find?, pt_in_simplex, LinPiece.eval,
      demoInstance1d]

/-- C2: the containment test reports, for every query point and simplex: in
1-D, containment iff `points[simplex[0]] <= point <= points[simplex[1]]`;
otherwise, containment iff the barycentric system is solvable and every
barycentric coordinate (i.e. every component of the solution of the affine
system `baryMatrix · lam = pt ++ [1]`) is ≥ `-ZERO_TOLERANCE = -1e-8`, and
non-containment — without raising — when the barycentric system matrix is
singular. -/
theorem c2_pt_in_simplex_characterization :
    ∀ (points : List (List ℚ)) (simplex : List ℕ) (pt : List ℚ),
      (pt.length = 1 →
        (pt_in_simplex points simplex pt = true ↔
          ((points.getD (simplex.getD 0 0) []).getD 0 0 ≤ pt.getD 0 0 ∧
            pt.getD 0 0 ≤ (points.getD (simplex.getD 1 0) []).getD 0 0))) ∧
      (pt.length ≠ 1 →
        ((pt_in_simplex points simplex pt = true ↔
            (∃ lam, barycentricCoords points simplex pt = some lam ∧
              ∀ i, -ZERO_TOLERANCE ≤ lam i)) ∧
          ((baryMatrix points simplex pt.length).det = 0 →
            pt_in_simplex points simplex pt = false) ∧
          (∀ lam, barycentricCoords points simplex pt = some lam →
            (baryMatrix points simplex pt.length).mulVec lam = baryRhs pt))) := by
  intro points simplex pt
  constructor
  · intro h1
    unfold pt_in_simplex
    rw [if_pos h1]
    simp only [decide_eq_true_eq, ge_iff_le]
  · intro h1
    unfold pt_in_simplex
    rw [if_neg h1]
    refine ⟨?_, ?_, ?_⟩
    · cases m : barycentricCoords points simplex pt with
      | none => simp
      | some lam =>
        simp only [decide_eq_true_eq, Option.some.injEq]
        constructor
        · intro hall
          exact ⟨lam, rfl, fun i => le_of_not_lt (by simpa using hall i)⟩
        · rintro ⟨lam', hlam', hge⟩ i
          subst hlam'
          exact not_lt.mpr (hge i)
    · intro hdet
      have hnone : barycentricCoords points simplex pt = none := by
        unfold barycentricCoords
        exact (npSolve_eq_none_iff _ _).mpr hdet
      rw [hnone]
    · intro lam hlam
      exact npSolve_sound hlam

/-- Witness for C2: the 1-D characterization applied to the segment `[0, 1]`
at the query point `1/2`. -/
theorem c2_witness : pt_in_simplex [[0], [1]] [0, 1] [1/2] = true :=
  ((c2_pt_in_simplex_characterization [[0], [1]] [0, 1] [1/2]).1 rfl).mpr
    (by norm_num)

/-- Three collinear points — the spec's degenerate 2-D simplex. -/
def demoDegPoints : List (List ℚ) := [[0, 0], [1, 1], [2, 2]]

theorem demoDeg_affdep :
    AffinelyDependent 2 (vertexCoords demoDegPoints [0, 1, 2] 2) := by
  refine ⟨![1, -2, 1], ?_, ?_, ?_⟩
  · apply Function.ne_iff.mpr
    refine ⟨0, ?_⟩
    norm_num
  · norm_num [Fin.sum_univ_succ]
  · intro j
    fin_cases j <;>
      norm_num [Fin.sum_univ_succ, vertexCoords, demoDegPoints]

/-- C6: a simplex whose vertices are affinely dependent makes fitting fail
(1-D: `x1 = x2` aborts the segment fit; D ≥ 2: the hyperplane system is
singular, so the per-simplex fit fails and the whole construction aborts with
the degenerate-simplex error); the same degeneracy met at point-location time
instead degrades gracefully to non-containment, without raising. -/
theorem c6_degenerate_simplex_errors :
    (∀ (f : ℚ → ℚ) (x1 x2 : ℚ), x1 = x2 → fitSegment f x1 x2 = none) ∧
    (∀ (points : List (List ℚ)) (simplex : List ℕ) (f : List ℚ → ℚ) (d : ℕ),
      AffinelyDependent d (vertexCoords points simplex d) →
      fitSimplexMV points simplex f d = none) ∧
    (∀ (pts : List (List ℚ)) (simplices : List (List ℕ)) (f : List ℚ → ℚ)
        (s : List ℕ), s ∈ simplices →
      (simplices.headD []).length - 1 ≠ 1 →
      AffinelyDependent ((simplices.headD []).length - 1)
        (vertexCoords pts s ((simplices.headD []).length - 1)) →
      fit_function_over_simplices pts simplices f = .error .degenerateError) ∧
    (∀ (points : List (List ℚ)) (simplex : List ℕ) (pt : List ℚ),
      pt.length ≠ 1 → (baryMatrix points simplex pt.length).det = 0 →
      pt_in_simplex points simplex pt = false) := by
  refine ⟨?_, ?_, ?_, ?_⟩
  · intro f x1 x2 h
    subst h
    simp [fitSegment]
  · intro points simplex f d hdep
    exact fitSimplexMV_none_of_affinelyDependent points simplex f d hdep
  · intro pts simplices f s hmem hdim hdep
    have hne : ¬ simplices.length < 1 := by
      have := List.length_pos.mpr (List.ne_nil_of_mem hmem)
      omega
    unfold fit_function_over_simplices
    rw [if_neg hne, if_neg hdim,
      fitList_none_of_mem hmem
        (fitSimplexMV_none_of_affinelyDependent _ _ _ _ hdep)]
  · intro points simplex pt h1 hdet
    have hnone : barycentricCoords points simplex pt = none := by
      unfold barycentricCoords
      exact (npSolve_eq_none_iff _ _).mpr hdet
    unfold pt_in_simplex
    rw [if_neg h1, hnone]

/-- Witness for C6: concrete degenerate inputs — a zero-length 1-D segment,
the collinear 2-D simplex `[(0,0), (1,1), (2,2)]` (fit failure, fatal to the
mode-2 construction), and the singular barycentric system at the query point
`(5, 5)` (graceful non-containment). -/
theorem c6_witness :
    fitSegment (fun x => x) 1 1 = none ∧
    fitSimplexMV demoDegPoints [0, 1, 2] demoMVF 2 = none ∧
    fit_function_over_simplices demoDegPoints [[0, 1, 2]] demoMVF =
      .error .degenerateError ∧
    pt_in_simplex demoDegPoints [0, 1, 2] [5, 5] = false :=
  ⟨c6_degenerate_simplex_errors.1 (fun x => x) 1 1 rfl,
    c6_degenerate_simplex_errors.2.1 demoDegPoints [0, 1, 2] demoMVF 2
      demoDeg_affdep,
    c6_degenerate_simplex_errors.2.2.1 demoDegPoints [[0, 1, 2]] demoMVF
      [0, 1, 2] (by simp) (by norm_num) demoDeg_affdep,
    c6_degenerate_simplex_errors.2.2.2 demoDegPoints [0, 1, 2] [5, 5]
      (by norm_num)
      (by
        show (baryMatrix demoDegPoints [0, 1, 2] 2).det = 0
        rw [Matrix.det_fin_three]
        norm_num [baryMatrix, demoDegPoints])⟩

/-- The scan over `zip(simplices, linear_functions)` finds nothing exactly
when no scanned simplex contains the point. -/
theorem pwScan_none (points : List (List ℚ)) (pt : List ℚ) :
    ∀ (l₁ : List (List ℕ)) (l₂ : List LinPiece), l₁.length = l₂.length →
      ((l₁.zip l₂).find? (fun sf => pt_in_simplex points sf.1 pt) = none ↔
        ∀ s ∈ l₁, pt_in_simplex points s pt = false) := by
  intro l₁
  induction l₁ with
  | nil =>
    intro l₂ _
    simp
  | cons s r ih =>
    intro l₂ h
    cases l₂ with
    | nil => simp at h
    | cons p r₂ =>
      simp only [List.zip_cons_cons]
      cases hc : pt_in_simplex points s pt with
      | true =>
        rw [List.find?_cons_of_pos _ (by simpa using hc)]
        constructor
        · intro habs
          exact absurd habs (by simp)
        · intro hall
          exact absurd (hall s (by simp)) (by simp [hc])
      | false =>
        rw [List.find?_cons_of_neg _ (by simp [hc])]
        rw [ih r₂ (by simpa using h)]
        constructor
        · intro hall t ht
          rcases List.mem_cons.mp ht with rfl | ht'
          · exact hc
          · exact hall t ht'
        · intro hall t ht
          exact hall t (List.mem_cons_of_mem _ ht)

/-- The scan returns the piece paired with the first containing simplex. -/
theorem pwScan_first (points : List (List ℚ)) (pt : List ℚ) :
    ∀ (i : ℕ) (l₁ : List (List ℕ)) (l₂ : List LinPiece),
      l₁.length = l₂.length → i < l₁.length →
      pt_in_simplex points (l₁.getD i []) pt = true →
      (∀ j, j < i → pt_in_simplex points (l₁.getD j []) pt = false) →
      (l₁.zip l₂).find? (fun sf => pt_in_simplex points sf.1 pt) =
        some (l₁.getD i [], l₂.getD i ⟨[], 0⟩) := by
  intro i
  induction i with
  | zero =>
    intro l₁ l₂ hlen hi hc _
    cases l₁ with
    | nil => simp at hi
    | cons s r =>
      cases l₂ with
      | nil => simp at hlen
      | cons p r₂ =>
        simp only [List.getD_cons_zero] at hc ⊢
        simp only [List.zip_cons_cons]
        rw [List.find?_cons_of_pos _ (by simpa using hc)]
  | succ i ih =>
    intro l₁ l₂ hlen hi hc hprev
    cases l₁ with
    | nil => simp at hi
    | cons s r =>
      cases l₂ with
      | nil => simp at hlen
      | cons p r₂ =>
        have h0 : pt_in_simplex points s pt = false := by
          simpa [List.getD_cons_zero] using hprev 0 (Nat.succ_pos i)
        simp only [List.zip_cons_cons]
        rw [List.find?_cons_of_neg _ (by simp [h0])]
        have hr := ih r r₂ (by simpa using hlen) (by simpa using hi)
          (by simpa [List.getD_cons_succ] using hc)
          (fun j hj => by
            simpa [List.getD_cons_succ] using hprev (j + 1)
              (Nat.succ_lt_succ hj))
        simpa [List.getD_cons_succ] using hr

/-- C5: on a constructed instance (the parallel simplex/piece lists have the
lengths the construction modes produce), a fully numeric evaluation fails
(`DomainError`) iff no stored simplex contains the point; otherwise the scan
applies the piece of the first containing simplex and returns its exact
value. -/
theorem c5_evaluate_first_containing_or_domain_error :
    ∀ (D : PWLFData) (pt : List ℚ),
      D.simplices.length = D.linear_functions.length →
      (pwEvaluate D pt = none ↔
        ∀ s ∈ D.simplices, pt_in_simplex D.points s pt = false) ∧
      (∀ i, i < D.simplices.length →
        pt_in_simplex D.points (D.simplices.getD i []) pt = true →
        (∀ j, j < i →
          pt_in_simplex D.points (D.simplices.getD j []) pt = false) →
        pwEvaluate D pt =
          some ((D.linear_functions.getD i ⟨[], 0⟩).eval pt)) := by
  intro D pt hlen
  have hiff := pwScan_none D.points pt D.simplices D.linear_functions hlen
  constructor
  · unfold pwEvaluate
    cases hf : (D.simplices.zip D.linear_functions).find?
        (fun sf => pt_in_simplex D.points sf.1 pt) with
    | some sf =>
      constructor
      · intro habs
        exact absurd habs (by simp)
      · intro hall
        exact absurd (hiff.mpr hall) (by simp [hf])
    | none =>
      constructor
      · intro _
        exact hiff.mp hf
      · intro _
        rfl
  · intro i hi hc hprev
    unfold pwEvaluate
    rw [pwScan_first D.points pt i D.simplices D.linear_functions hlen hi hc
      hprev]

/-- Witness for C5: on the 1-D scenario instance, the query `3/2` is located
in the second segment (the first does not contain it) and evaluates through
that segment's piece. -/
theorem c5_witness :
    pwEvaluate demoInstance1d [3/2] =
      some ((demoInstance1d.linear_functions.getD 1 ⟨[], 0⟩).eval [3/2]) :=
  (c5_evaluate_first_containing_or_domain_error demoInstance1d [3/2] rfl).2 1
    (by norm_num [demoInstance1d])
    (by norm_num [demoInstance1d, pt_in_simplex])
    (fun j hj => by
      have hj0 : j = 0 := by omega
      subst hj0
      norm_num [demoInstance1d, pt_in_simplex])

/-- C4 counterexample: calling the engine twice with the identical symbolic
call expression (the same argument tuple `(symbolic 0,)`, starting from a
fresh instance state) does **not** return the identical node — a second,
duplicate node is created and registered, so the registry ends with two
entries. This refutes the claim's first half at a concrete input. -/
theorem c4_counterexample :
    (pwlfCall ⟨[], [], []⟩ ⟨0, []⟩ [.symbolic 0]).1 ≠
      (pwlfCall ⟨[], [], []⟩
        (pwlfCall ⟨[], [], []⟩ ⟨0, []⟩ [.symbolic 0]).2 [.symbolic 0]).1 ∧
    ((pwlfCall ⟨[], [], []⟩
        (pwlfCall ⟨[], [], []⟩ ⟨0, []⟩ [.symbolic 0]).2
        [.symbolic 0]).2).exprs.length = 2 := by
  constructor
  · simp [pwlfCall, PWArg.isConcrete, List.all]
  · simp [pwlfCall, PWArg.isConcrete, List.all]

/-- C4 (amended): every call carrying a symbolic argument manufactures a
fresh expression node and registers it under the new expression object's
identity; two successive symbolic calls — even with the identical symbolic
call expression — therefore return two distinct nodes and add two registry
entries (in particular two distinct symbolic call expressions yield two
distinct nodes), and looking the registry up by a returned node's identity
returns exactly that node (the registry is keyed by the identity of the
call's internal representation). -/
theorem c4_symbolic_call_creates_fresh_node :
    ∀ (D : PWLFData) (σ : SymState) (args₁ args₂ : List PWArg),
      args₁.all PWArg.isConcrete = false →
      args₂.all PWArg.isConcrete = false →
      ∃ n₁ n₂ : PWNode,
        (pwlfCall D σ args₁).1 = some (Sum.inr n₁) ∧
        (pwlfCall D (pwlfCall D σ args₁).2 args₂).1 = some (Sum.inr n₂) ∧
        n₁ ≠ n₂ ∧
        (pwlfCall D (pwlfCall D σ args₁).2 args₂).2.exprs.length =
          σ.exprs.length + 2 ∧
        ((∀ e ∈ σ.exprs, e.1 < σ.nextId) →
          exprLookup (pwlfCall D (pwlfCall D σ args₁).2 args₂).2 n₁.exprId =
            some n₁ ∧
          exprLookup (pwlfCall D (pwlfCall D σ args₁).2 args₂).2 n₂.exprId =
            some n₂) := by
  intro D σ args₁ args₂ h1 h2
  refine ⟨⟨σ.nextId, args₁⟩, ⟨σ.nextId + 1, args₂⟩, ?_, ?_, ?_, ?_, ?_⟩
  · simp [pwlfCall, h1]
  · simp [pwlfCall, h1, h2]
  · intro habs
    have := congrArg PWNode.exprId habs
    simp at this
  · simp [pwlfCall, h1, h2]
  · intro hfresh
    have hnone : σ.exprs.find? (fun e => e.1 == σ.nextId) = none :=
      List.find?_eq_none.mpr (fun e he => by
        have := hfresh e he
        simp only [beq_iff_eq]
        omega)
    have hnone' : σ.exprs.find? (fun e => e.1 == σ.nextId + 1) = none :=
      List.find?_eq_none.mpr (fun e he => by
        have := hfresh e he
        simp only [beq_iff_eq]
        omega)
    constructor
    · simp [pwlfCall, h1, h2, exprLookup, List.find?_append, hnone]
    · simp [pwlfCall, h1, h2, exprLookup, List.find?_append, hnone']

/-- Witness for C4 (amended): the fresh-node behaviour exercised on a fresh
instance with the same symbolic argument tuple passed to both calls. -/
theorem c4_witness :
    ∃ n₁ n₂ : PWNode,
      (pwlfCall ⟨[], [], []⟩ ⟨0, []⟩ [.symbolic 0]).1 = some (Sum.inr n₁) ∧
      (pwlfCall ⟨[], [], []⟩
        (pwlfCall ⟨[], [], []⟩ ⟨0, []⟩ [.symbolic 0]).2 [.symbolic 0]).1 =
        some (Sum.inr n₂) ∧
      n₁ ≠ n₂ ∧
      (pwlfCall ⟨[], [], []⟩
        (pwlfCall ⟨[], [], []⟩ ⟨0, []⟩ [.symbolic 0]).2
        [.symbolic 0]).2.exprs.length = (SymState.mk 0 []).exprs.length + 2 ∧
      ((∀ e ∈ (SymState.mk 0 []).exprs, e.1 < (SymState.mk 0 []).nextId) →
        exprLookup (pwlfCall ⟨[], [], []⟩
          (pwlfCall ⟨[], [], []⟩ ⟨0, []⟩ [.symbolic 0]).2
          [.symbolic 0]).2 n₁.exprId = some n₁ ∧
        exprLookup (pwlfCall ⟨[], [], []⟩
          (pwlfCall ⟨[], [], []⟩ ⟨0, []⟩ [.symbolic 0]).2
          [.symbolic 0]).2 n₂.exprId = some n₂) :=
  c4_symbolic_call_creates_fresh_node ⟨[], [], []⟩ ⟨0, []⟩ [.symbolic 0]
    [.symbolic 0] rfl rfl

/-- C7: when the triangulation library fails in the multivariate
function-plus-points mode, construction does fail — but with the `NameError`
raised by the undefined name `logger` in the `except` block, not with the
surfaced triangulation error (the spec's `GeometryError`): the `raise`
statement that would re-raise it is unreachable. -/
theorem c7_triangulation_failure_masked_by_nameError :
    ∀ (tri : List (List ℚ) → Except Unit (List (List ℕ)))
      (points : List (List ℚ)) (f : List ℚ → ℚ) (e : Unit),
      1 ≤ points.length → tri points = .error e →
      construct_from_function_and_points_mv tri points f =
        .error .nameError ∧
      construct_from_function_and_points_mv tri points f ≠
        .error .geometryError := by
  intro tri points f e hlen htri
  unfold construct_from_function_and_points_mv
  rw [if_neg (by omega), htri]
  exact ⟨rfl, by simp⟩

/-- Witness for C7: a triangulator that rejects its input (as `Delaunay` does
on the collinear cloud `[(0,0), (1,1), (2,2)]`) makes construction fail with
the `NameError`, not the `GeometryError`. -/
theorem c7_witness :
    construct_from_function_and_points_mv (fun _ => .error ()) demoDegPoints
      demoMVF = .error .nameError ∧
    construct_from_function_and_points_mv (fun _ => .error ()) demoDegPoints
      demoMVF ≠ .error .geometryError :=
  c7_triangulation_failure_masked_by_nameError (fun _ => .error ())
    demoDegPoints demoMVF () (by norm_num [demoDegPoints]) rfl

/-- C8: construction with any combination of (function, points, simplices,
linear_functions) other than function+points, function+simplices and
linear_functions+simplices finds no handler and fails immediately with the
configuration error, before any builder runs (so the instance's geometry is
never populated). -/
theorem c8_unsupported_combination_rejected :
    ∀ (hasFn hasPts hasSimp hasLin : Bool)
      (run : PWMode → Except PWErr PWLFData),
      (selectHandler hasFn hasPts hasSimp hasLin = none ↔
        ¬((hasFn, hasPts, hasSimp, hasLin) = (true, true, false, false) ∨
          (hasFn, hasPts, hasSimp, hasLin) = (true, false, true, false) ∨
          (hasFn, hasPts, hasSimp, hasLin) = (false, false, true, true))) ∧
      (selectHandler hasFn hasPts hasSimp hasLin = none →
        getitem_when_not_present hasFn hasPts hasSimp hasLin run =
          .error .configurationError) := by
  intro hasFn hasPts hasSimp hasLin run
  constructor
  · cases hasFn <;> cases hasPts <;> cases hasSimp <;> cases hasLin <;>
      simp [selectHandler]
  · intro h
    unfold getitem_when_not_present
    rw [h]

/-- Witness for C8: supplying all four arguments at once is rejected with the
configuration error. -/
theorem c8_witness :
    getitem_when_not_present true true true true
      (fun _ => .ok ⟨[], [], []⟩) = .error .configurationError :=
  (c8_unsupported_combination_rejected true true true true
    (fun _ => .ok ⟨[], [], []⟩)).2 rfl

/-- The extraction loop records exactly one index tuple per input simplex. -/
theorem getSimplicesFromArg_snd_length (S : List (List (List ℚ))) :
    (getSimplicesFromArg S).2.length = S.length := by
  have key : ∀ (T : List (List (List ℚ))) (acc : List (List ℚ) × List (List ℕ)),
      (T.foldl (fun acc simplex =>
        let r := internSimplex acc.1 simplex
        (r.1, acc.2 ++ [r.2])) acc).2.length = acc.2.length + T.length := by
    intro T
    induction T with
    | nil =>
      intro acc
      simp
    | cons s rest ih =>
      intro acc
      simp only [List.foldl_cons]
      rw [ih]
      simp only [List.length_append, List.length_cons, List.length_nil]
      omega
  unfold getSimplicesFromArg
  rw [key]
  simp

theorem construct_univariate_ok_lengths {pts : List (List ℚ)}
    {simplices : List (List ℕ)} {f : ℚ → ℚ} {D : PWLFData}
    (h : construct_from_univariate_function_and_segments pts simplices f =
      .ok D) : D.simplices.length = D.linear_functions.length := by
  unfold construct_from_univariate_function_and_segments at h
  cases hfit : fitList simplices (fun s =>
      fitSegment f ((pts.getD (s.getD 0 0) []).getD 0 0)
        ((pts.getD (s.getD 1 0) []).getD 0 0)) with
  | none =>
    rw [hfit] at h
    exact absurd h (by simp)
  | some pieces =>
    rw [hfit] at h
    simp only [Except.ok.injEq] at h
    subst h
    exact (fitList_length hfit).symm

theorem fit_over_simplices_ok_lengths {pts : List (List ℚ)}
    {simplices : List (List ℕ)} {f : List ℚ → ℚ} {D : PWLFData}
    (h : fit_function_over_simplices pts simplices f = .ok D) :
    D.simplices.length = D.linear_functions.length := by
  unfold fit_function_over_simplices at h
  by_cases hlen : simplices.length < 1
  · rw [if_pos hlen] at h
    exact absurd h (by simp)
  · rw [if_neg hlen] at h
    by_cases hdim : (simplices.headD []).length - 1 = 1
    · rw [if_pos hdim] at h
      exact construct_univariate_ok_lengths h
    · rw [if_neg hdim] at h
      cases hfit : fitList simplices (fun s =>
          fitSimplexMV pts s f ((simplices.headD []).length - 1)) with
      | none =>
        rw [hfit] at h
        exact absurd h (by simp)
      | some pieces =>
        rw [hfit] at h
        simp only [Except.ok.injEq] at h
        subst h
        exact (fitList_length hfit).symm

/-- C9 counterexample: in the linear-functions mode, construction with one
simplex and two linear functions succeeds (the code performs no length
check) and leaves `len(simplices) = 1 ≠ 2 = len(pieces)`, refuting the
claimed invariant for that mode. -/
theorem c9_counterexample :
    ¬ ((construct_from_linear_functions_and_simplices [[[0], [1]]]
        [⟨[1], 0⟩, ⟨[2], 0⟩]).simplices.length =
      (construct_from_linear_functions_and_simplices [[[0], [1]]]
        [⟨[1], 0⟩, ⟨[2], 0⟩]).linear_functions.length) := by
  intro habs
  have h1 := getSimplicesFromArg_snd_length [[[0], [1]]]
  unfold construct_from_linear_functions_and_simplices at habs
  simp only at habs
  rw [h1] at habs
  simp at habs

/-- C9 (amended): after a successful construction in the function+points and
function+simplices modes, `len(simplices) = len(pieces)` always holds; in
the linear_functions+simplices mode no length check is performed, so the
equality holds iff the caller supplies exactly one linear function per
simplex. (All three stores are immutable after construction, so whatever
holds then holds for the instance's lifetime.) -/
theorem c9_parallel_lengths :
    (∀ (points : List ℚ) (f : ℚ → ℚ) (D : PWLFData),
      construct_from_function_and_points_1d points f = .ok D →
      D.simplices.length = D.linear_functions.length) ∧
    (∀ (tri : List (List ℚ) → Except Unit (List (List ℕ)))
        (points : List (List ℚ)) (f : List ℚ → ℚ) (D : PWLFData),
      construct_from_function_and_points_mv tri points f = .ok D →
      D.simplices.length = D.linear_functions.length) ∧
    (∀ (S : List (List (List ℚ))) (f : List ℚ → ℚ) (D : PWLFData),
      construct_from_function_and_simplices S f = .ok D →
      D.simplices.length = D.linear_functions.length) ∧
    (∀ (S : List (List (List ℚ))) (lfs : List LinPiece),
      (construct_from_linear_functions_and_simplices S lfs).simplices.length =
        (construct_from_linear_functions_and_simplices S
          lfs).linear_functions.length ↔
        S.length = lfs.length) := by
  refine ⟨?_, ?_, ?_, ?_⟩
  · intro points f D h
    unfold construct_from_function_and_points_1d at h
    by_cases hlen : points.length < 1
    · rw [if_pos hlen] at h
      exact absurd h (by simp)
    · rw [if_neg hlen] at h
      exact construct_univariate_ok_lengths h
  · intro tri points f D h
    unfold construct_from_function_and_points_mv at h
    by_cases hlen : points.length < 1
    · rw [if_pos hlen] at h
      exact absurd h (by simp)
    · rw [if_neg hlen] at h
      cases htri : tri points with
      | error e =>
        rw [htri] at h
        exact absurd h (by simp)
      | ok simplices =>
        rw [htri] at h
        exact fit_over_simplices_ok_lengths h
  · intro S f D h
    unfold construct_from_function_and_simplices at h
    exact fit_over_simplices_ok_lengths h
  · intro S lfs
    unfold construct_from_linear_functions_and_simplices
    simp only
    rw [getSimplicesFromArg_snd_length]

/-- Witness for C9 (amended): the 1-D scenario construction produces as many
pieces as segments. -/
theorem c9_witness :
    demoInstance1d.simplices.length =
      demoInstance1d.linear_functions.length :=
  c9_parallel_lengths.1 [0, 1, 2] (fun x => x * x) demoInstance1d
    demo1d_construct

theorem intern_of_not_mem {pts : List (List ℚ)} {p : List ℚ} (h : p ∉ pts) :
    intern pts p = (pts ++ [p], pts.length) := by
  unfold intern
  have hnone : pts.findIdx? (fun q => decide (q = p)) = none := by
    rw [List.findIdx?_eq_none_iff]
    intro x hx
    simp only [decide_eq_false_iff_not]
    intro hxp
    exact h (hxp ▸ hx)
  rw [hnone]

theorem intern_of_mem {pts : List (List ℚ)} {p : List ℚ} (h : p ∈ pts) :
    (intern pts p).1 = pts := by
  unfold intern
  cases hf : pts.findIdx? (fun q => decide (q = p)) with
  | none =>
    exfalso
    have := List.findIdx?_eq_none_iff.mp hf p h
    simp at this
  | some i => rfl

theorem findIdx_append_singleton (p : List ℚ) :
    ∀ pts : List (List ℚ), p ∉ pts →
      (pts ++ [p]).findIdx? (fun q => decide (q = p)) = some pts.length := by
  intro pts
  induction pts with
  | nil =>
    intro _
    simp [List.findIdx?_cons]
  | cons q rest ih =>
    intro h
    have hq : ¬ q = p := fun e => h (by simp [e])
    have hr : p ∉ rest := fun e => h (by simp [e])
    have hqd : (decide (q = p)) = false := by simp [hq]
    simp only [List.cons_append, List.findIdx?_cons, hqd,
      Bool.false_eq_true, if_false, List.findIdx?_start_succ]
    rw [ih hr]
    simp

theorem intern_idem (pts : List (List ℚ)) (p : List ℚ) :
    intern (intern pts p).1 p = intern pts p := by
  by_cases h : p ∈ pts
  · rw [intern_of_mem h]
  · rw [intern_of_not_mem h]
    unfold intern
    rw [findIdx_append_singleton p pts h]

/-- The store component of the extraction fold is plain repeated interning. -/
def internAll (pts : List (List ℚ)) (l : List (List ℚ)) : List (List ℚ) :=
  l.foldl (fun a p => (intern a p).1) pts

theorem internSimplex_fst (simplex : List (List ℚ)) :
    ∀ (pts : List (List ℚ)) (acc2 : List ℕ),
      (simplex.foldl (fun (a : List (List ℚ) × List ℕ) p =>
        let r := intern a.1 p
        (r.1, a.2 ++ [r.2])) (pts, acc2)).1 = internAll pts simplex := by
  induction simplex with
  | nil =>
    intro pts acc2
    rfl
  | cons p rest ih =>
    intro pts acc2
    simp only [List.foldl_cons]
    exact ih (intern pts p).1 (acc2 ++ [(intern pts p).2])

theorem getSimplicesFromArg_fst (S : List (List (List ℚ))) :
    (getSimplicesFromArg S).1 = internAll [] S.flatten := by
  have key : ∀ (T : List (List (List ℚ))) (acc : List (List ℚ) × List (List ℕ)),
      (T.foldl (fun acc simplex =>
        let r := internSimplex acc.1 simplex
        (r.1, acc.2 ++ [r.2])) acc).1 = internAll acc.1 T.flatten := by
    intro T
    induction T with
    | nil =>
      intro acc
      rfl
    | cons s rest ih =>
      intro acc
      simp only [List.foldl_cons, List.flatten_cons]
      rw [ih]
      unfold internAll
      rw [List.foldl_append]
      congr 1
      exact internSimplex_fst s acc.1 []
  unfold getSimplicesFromArg
  exact key S ([], [])

theorem internAll_nodup :
    ∀ (l : List (List ℚ)) (pts : List (List ℚ)),
      pts.Nodup → (internAll pts l).Nodup := by
  intro l
  induction l with
  | nil =>
    intro pts h
    exact h
  | cons p rest ih =>
    intro pts h
    show (internAll (intern pts p).1 rest).Nodup
    apply ih
    by_cases hp : p ∈ pts
    · rw [intern_of_mem hp]
      exact h
    · rw [show (intern pts p).1 = pts ++ [p] from by
        rw [intern_of_not_mem hp]]
      rw [List.nodup_append]
      exact ⟨h, List.nodup_singleton p, by
        intro a ha hb
        simp only [List.mem_singleton] at hb
        exact hp (hb ▸ ha)⟩

theorem internAll_mem :
    ∀ (l : List (List ℚ)) (pts : List (List ℚ)) (q : List ℚ),
      q ∈ internAll pts l ↔ q ∈ pts ∨ q ∈ l := by
  intro l
  induction l with
  | nil =>
    intro pts q
    simp [internAll]
  | cons p rest ih =>
    intro pts q
    show q ∈ internAll (intern pts p).1 rest ↔ _
    rw [ih]
    by_cases hp : p ∈ pts
    · rw [intern_of_mem hp]
      constructor
      · rintro (hq | hq)
        · exact Or.inl hq
        · exact Or.inr (List.mem_cons_of_mem _ hq)
      · rintro (hq | hq)
        · exact Or.inl hq
        · rcases List.mem_cons.mp hq with rfl | hq'
          · exact Or.inl hp
          · exact Or.inr hq'
    · rw [show (intern pts p).1 = pts ++ [p] from by
        rw [intern_of_not_mem hp]]
      simp [List.mem_append, List.mem_cons, or_assoc]

/-- C10: the point registry is idempotent — interning an already-seen
coordinate tuple returns the store unchanged together with the index
assigned on first sight, while an unseen tuple is appended at the next index
— and after extracting the points of explicit simplices the registry holds
no duplicates and exactly as many points as there are distinct coordinate
tuples among all supplied vertices. -/
theorem c10_point_registry_idempotent_dedup :
    (∀ (pts : List (List ℚ)) (p : List ℚ),
      intern (intern pts p).1 p = intern pts p) ∧
    (∀ (pts : List (List ℚ)) (p : List ℚ), p ∉ pts →
      intern pts p = (pts ++ [p], pts.length)) ∧
    (∀ S : List (List (List ℚ)),
      (getSimplicesFromArg S).1.Nodup ∧
      (getSimplicesFromArg S).1.length = S.flatten.dedup.length) := by
  refine ⟨intern_idem, fun _ _ h => intern_of_not_mem h, ?_⟩
  intro S
  rw [getSimplicesFromArg_fst]
  have hnd : (internAll [] S.flatten).Nodup :=
    internAll_nodup S.flatten [] (List.nodup_nil)
  refine ⟨hnd, ?_⟩
  have hperm : List.Perm (internAll [] S.flatten) S.flatten.dedup := by
    rw [List.perm_ext_iff_of_nodup hnd (List.nodup_dedup _)]
    intro a
    rw [internAll_mem, List.mem_dedup]
    simp
  exact hperm.length_eq

/-- Witness for C10: interning `[1]` into the store `[[0]]` appends it at
index 1; interning the same tuple again returns the same store and index. -/
theorem c10_witness :
    intern [[(0 : ℚ)]] [1] = ([[0], [1]], 1) ∧
    intern (intern [[(0 : ℚ)]] [1]).1 [1] = intern [[(0 : ℚ)]] [1] := by
  constructor
  · rw [c10_point_registry_idempotent_dedup.2.1 [[(0 : ℚ)]] [1]
      (by norm_num)]
    rfl
  · exact c10_point_registry_idempotent_dedup.1 [[(0 : ℚ)]] [1]
